import Mathlib

/-!
Shallow embedding of the tool-augmented orchestration core of
`mcp-agents-go` (packages `agent` and `server`).

The embedding translates, from the source:
  * `ExecuteTool`            (argument validation, namespaced-name resolution,
                              provider invocation, result marshaling),
  * `GenerateContent`        (blocking orchestration loop),
  * `GenerateContentAsStreaming` (streaming orchestration loop with the
                              chunk classifier of its streaming callback),
  * `ExtractToolsFromAgent`  (tool-catalog flattening and namespacing).

External collaborators are modelled as parameters of an `Env` record:
the LLM client (`llms.Model.GenerateContent`, in blocking and streaming
form), the MCP client of each provider (`Client.CallTool` returning an
opaque result handle), the result serializer (`sonic.MarshalString`), and
the JSON parser of `encoding/json` (`jsonParse`, an abstract
`String → Option JsonVal`; every theorem quantifies over it).

Go panics are made explicit: the blocking loop's `panic(err)` calls, the
out-of-range slice in `ExecuteTool`'s name splitting, and the unchecked
`resp.Choices[0]` access are `PanicCause` outcomes of the embedding.
Externally observable interactions (LLM calls and provider tool
invocations) are recorded in an `Event` trace, and the conversation
(`msgs`) reached by a run is reported alongside the Go return value, as
ghost instrumentation.  Go strings are modelled as Lean strings (byte
lengths of the source read as character lengths; all constants involved
are ASCII).
-/

namespace McpAgents

/-- JSON values, the target of the abstract `encoding/json` parser. -/
inductive JsonVal where
  | null
  | bool (b : Bool)
  | num (n : Int)
  | str (s : String)
  | arr (elems : List JsonVal)
  | obj (fields : List (String × JsonVal))
deriving Repr

/-- A tool call suggested by the LLM (`llms.ToolCall` with its
`FunctionCall.Name` and `FunctionCall.Arguments`). -/
structure ToolCall where
  id : String
  name : String
  arguments : String
deriving DecidableEq, Repr

/-- One content part of a conversation message (`llms.ContentPart`). -/
inductive ContentPart where
  | text (s : String)
  | toolCall (tc : ToolCall)
  | toolCallResponse (toolCallID : String) (content : String)
deriving DecidableEq, Repr

/-- A conversation message (`llms.MessageContent`). -/
structure MessageContent where
  role : String
  parts : List ContentPart
deriving DecidableEq, Repr

/-- One choice of an LLM response (`llms.ContentChoice`): its text and its
suggested tool calls. -/
structure ContentChoice where
  content : String
  toolCalls : List ToolCall
deriving DecidableEq, Repr

/-- An LLM response (`llms.ContentResponse`): a list of choices; the Go code
reads `resp.Choices[0]` (unchecked in the blocking loop). -/
structure ContentResponse where
  choices : List ContentChoice
deriving DecidableEq, Repr

/-- A configured MCP server as the agent sees it: its name and an opaque
handle standing for its `Client`. -/
structure MCPServer where
  name : String
  client : Nat
deriving DecidableEq, Repr

/-- A tool advertised by an MCP server (`mcp.Tool`), reduced to the fields
the orchestration core reads. -/
structure McpTool where
  name : String
  description : String
deriving DecidableEq, Repr

/-- A tool definition advertised to the LLM (`llms.Tool` /
`llms.FunctionDefinition`), reduced to the fields the core writes. -/
structure LlmTool where
  name : String
  description : String
deriving DecidableEq, Repr

/-- The agent state the orchestration core reads: the per-server allowed
tools (`MCPServerTools`, determinized to an association list) and the
resolved servers (`mcpServers`). -/
structure MCPAgent where
  mcpServerTools : List (String × List McpTool)
  mcpServers : List MCPServer
deriving DecidableEq, Repr

/-- Error values produced by the core, tagged with the error taxonomy of the
source (`invalid JSON arguments`, the `slices.Find` not-found error, the
`failed to call mcp tool` wrap, the `failed to marshal mcp tool result`
wrap, and an LLM generation failure). -/
inductive ErrKind where
  | invalidArguments (args : String)
  | unknownProvider
  | toolExecutionFailed (msg : String)
  | marshalFailed (msg : String)
  | generationFailed (msg : String)
deriving DecidableEq, Repr

/-- Causes of a Go panic in the embedded code: `panic(err)` on an error
value, the out-of-range slice `toolName[:-1]` in `ExecuteTool`, and the
`resp.Choices[0]` access on an empty choice list. -/
inductive PanicCause where
  | errValue (e : ErrKind)
  | sliceOutOfRange
  | indexOutOfRange
deriving DecidableEq, Repr

/-- Externally observable interactions of one run: an LLM call carrying the
messages passed to it, and a provider tool invocation (`Client.CallTool`)
carrying the client handle, the local tool name and the raw JSON
arguments (`none` models the `nil` / null arguments case). -/
inductive Event where
  | llmCall (msgs : List MessageContent)
  | toolInvoke (client : Nat) (toolName : String) (arguments : Option String)
deriving DecidableEq, Repr

/-- Result of `ExecuteTool`: the marshaled result string, an error value, or
a Go panic. -/
inductive ToolOutcome where
  | ok (result : String)
  | err (e : ErrKind)
  | panicked (c : PanicCause)
deriving DecidableEq, Repr

/-- Caller-visible result of the blocking `GenerateContent` (its Go
signature returns only a `string`; every error path panics). -/
inductive Outcome where
  | ok (response : String)
  | panicked (c : PanicCause)
deriving DecidableEq, Repr

/-- The external collaborators of the core, as abstract functions:
`jsonParse` is `encoding/json` unmarshalling (returning the parsed value,
or `none` on a syntax error); `llm` is the blocking
`LLMModel.GenerateContent`; `llmStream` is the same call with a streaming
callback attached, returning the emitted raw chunks together with the
final response; `callTool` is `Client.CallTool` keyed by the opaque
client handle, returning an opaque result handle; `marshalString` is
`sonic.MarshalString` on that handle. -/
structure Env where
  jsonParse : String → Option JsonVal
  llm : List MessageContent → List LlmTool → Except String ContentResponse
  llmStream : List MessageContent → List LlmTool → List String × Except String ContentResponse
  callTool : Nat → String → Option String → Except String Nat
  marshalString : Nat → Except String String

/-- Index of the first occurrence of the two-character separator `__` in a
character list, as `strings.Index(toolName, "__")` computes it (`none`
models the `-1` result; `__` is ASCII, so Go's byte index coincides with
the character index). -/
def indexOfSep : List Char → Option Nat
  | [] => none
  | c :: rest =>
    if c = '_' ∧ rest.head? = some '_' then some 0
    else (indexOfSep rest).map (fun n => n + 1)

/-- Name resolution of `ExecuteTool`: `toolName[:strings.Index(toolName, "__")]`
and `toolName[strings.Index(toolName, "__")+2:]`.  When the separator is
absent, `strings.Index` yields `-1` and the slice expression panics; this
is the `none` result. -/
def splitToolName (toolName : String) : Option (String × String) :=
  match indexOfSep toolName.toList with
  | none => none
  | some i => some (String.mk (toolName.toList.take i), String.mk (toolName.toList.drop (i + 2)))

/-- Lookup of `slices.Find(m.mcpServers, ...)` by server name (first match). -/
def findServer (servers : List MCPServer) (serverName : String) : Option MCPServer :=
  servers.find? (fun srv => srv.name == serverName)

/-- Argument validation of `ExecuteTool`: the empty string and the literal
empty-object text mean null arguments; any other string must unmarshal or
the call fails with the `invalid JSON arguments` error.  On success the
raw string is forwarded (`json.RawMessage`). -/
def validateArguments (env : Env) (argumentsInJSON : String) : Except ErrKind (Option String) :=
  if argumentsInJSON = "" ∨ argumentsInJSON = "\x7b\x7d" then Except.ok none
  else
    match env.jsonParse argumentsInJSON with
    | none => Except.error (ErrKind.invalidArguments argumentsInJSON)
    | some _ => Except.ok (some argumentsInJSON)

/-- Embedding of `MCPAgent.ExecuteTool`: validate arguments, split the
namespaced name on the first `__`, find the owning server, call its
client with the local name and the arguments, and marshal the result.
The second component records every provider invocation performed. -/
def executeTool (env : Env) (ag : MCPAgent) (toolName argumentsInJSON : String) :
    ToolOutcome × List Event :=
  match validateArguments env argumentsInJSON with
  | Except.error e => (ToolOutcome.err e, [])
  | Except.ok arguments =>
    match splitToolName toolName with
    | none => (ToolOutcome.panicked PanicCause.sliceOutOfRange, [])
    | some (serverName, localName) =>
      match findServer ag.mcpServers serverName with
      | none => (ToolOutcome.err ErrKind.unknownProvider, [])
      | some toolServer =>
        match env.callTool toolServer.client localName arguments with
        | Except.error msg =>
          (ToolOutcome.err (ErrKind.toolExecutionFailed msg),
           [Event.toolInvoke toolServer.client localName arguments])
        | Except.ok resultHandle =>
          match env.marshalString resultHandle with
          | Except.error msg =>
            (ToolOutcome.err (ErrKind.marshalFailed msg),
             [Event.toolInvoke toolServer.client localName arguments])
          | Except.ok marshaledResult =>
            (ToolOutcome.ok marshaledResult,
             [Event.toolInvoke toolServer.client localName arguments])

/-- Embedding of `ExtractToolsFromAgent`: flatten the per-server tool lists,
prefixing each local tool name with `serverName ++ "__"`. -/
def extractToolsFromAgent (ag : MCPAgent) : List LlmTool :=
  ag.mcpServerTools.flatMap (fun p =>
    p.2.map (fun agT => { name := p.1 ++ "__" ++ agT.name, description := agT.description }))

/-- The initial conversation of a turn: one human message with the prompt. -/
def humanMsg (prompt : String) : MessageContent :=
  { role := "human", parts := [ContentPart.text prompt] }

/-- The AI message echoing a suggested tool call, appended before the tool
result. -/
def aiEchoMsg (tc : ToolCall) : MessageContent :=
  { role := "ai", parts := [ContentPart.toolCall tc] }

/-- The tool message carrying a tool result (`llms.ToolCallResponse`). -/
def toolRespMsg (toolCallID content : String) : MessageContent :=
  { role := "tool", parts := [ContentPart.toolCallResponse toolCallID content] }

/-- Display truncation of a tool result for the human-readable progress
marker: results longer than 1000 characters are cut at 1000 with a
trailing ellipsis.  The conversation itself always receives the full
result. -/
def truncateDisplay (s : String) : String :=
  if s.length > 1000 then s.take 1000 ++ "..." else s

/-- Local state of the blocking loop over suggested tool calls: the
conversation `msgs` and the accumulated `response` text. -/
structure LoopState where
  msgs : List MessageContent
  response : String
deriving DecidableEq, Repr

/-- The tool-call loop of the blocking `GenerateContent`: for each suggested
tool call, optionally accumulate the `[tool_usage]` marker, execute the
tool (its error panics via `panic(err)`, its bad-name slice panics
directly), append the AI echo and the tool-result messages, and
optionally accumulate the `[tool_response]` marker with the
display-truncated result.  Returns the panic cause if any, the state
reached, and the provider invocations performed. -/
def runToolCalls (env : Env) (ag : MCPAgent) (addNotFinalResponses : Bool) :
    List ToolCall → LoopState → Option PanicCause × LoopState × List Event
  | [], st => (none, st, [])
  | tc :: rest, st =>
    let response1 :=
      if addNotFinalResponses then st.response ++ "\n[tool_usage] " ++ tc.name ++ "\n"
      else st.response
    let er := executeTool env ag tc.name tc.arguments
    match er.1 with
    | ToolOutcome.err e =>
      (some (PanicCause.errValue e), { msgs := st.msgs, response := response1 }, er.2)
    | ToolOutcome.panicked c =>
      (some c, { msgs := st.msgs, response := response1 }, er.2)
    | ToolOutcome.ok toolRes =>
      let msgs2 := st.msgs ++ [aiEchoMsg tc, toolRespMsg tc.id toolRes]
      let response2 :=
        if addNotFinalResponses then
          response1 ++ "\n[tool_response] " ++ tc.name ++ ": " ++ truncateDisplay toolRes ++ "]\n\n"
        else response1
      let res := runToolCalls env ag addNotFinalResponses rest { msgs := msgs2, response := response2 }
      (res.1, res.2.1, er.2 ++ res.2.2)

/-- Embedding of the blocking `MCPAgent.GenerateContent` (the variant with
the `addNotFinalResponses` flag; the variant without the flag differs
only in printing progress to stdout instead of accumulating it).  Returns
the caller-visible outcome (the response string, or a panic), the trace
of external interactions, and the conversation reached. -/
def generateContent (env : Env) (ag : MCPAgent) (prompt : String)
    (addNotFinalResponses : Bool) : Outcome × List Event × List MessageContent :=
  let msgs := [humanMsg prompt]
  let tools := extractToolsFromAgent ag
  match env.llm msgs tools with
  | Except.error e =>
    (Outcome.panicked (PanicCause.errValue (ErrKind.generationFailed e)), [Event.llmCall msgs], msgs)
  | Except.ok resp =>
    match resp.choices with
    | [] => (Outcome.panicked PanicCause.indexOutOfRange, [Event.llmCall msgs], msgs)
    | choice :: _ =>
      if 0 < choice.toolCalls.length then
        let r := runToolCalls env ag addNotFinalResponses choice.toolCalls
          { msgs := msgs, response := "" }
        match r.1 with
        | some c => (Outcome.panicked c, Event.llmCall msgs :: r.2.2, r.2.1.msgs)
        | none =>
          match env.llm r.2.1.msgs tools with
          | Except.error e =>
            (Outcome.panicked (PanicCause.errValue (ErrKind.generationFailed e)),
             Event.llmCall msgs :: r.2.2 ++ [Event.llmCall r.2.1.msgs], r.2.1.msgs)
          | Except.ok resp2 =>
            match resp2.choices with
            | [] =>
              (Outcome.panicked PanicCause.indexOutOfRange,
               Event.llmCall msgs :: r.2.2 ++ [Event.llmCall r.2.1.msgs], r.2.1.msgs)
            | c2 :: _ =>
              (Outcome.ok (r.2.1.response ++ c2.content),
               Event.llmCall msgs :: r.2.2 ++ [Event.llmCall r.2.1.msgs], r.2.1.msgs)
      else
        (Outcome.ok choice.content, [Event.llmCall msgs], msgs)

/-- Unmarshalling a chunk into `[]interface\x7b\x7d`: succeeds exactly on a
JSON array (or `null`, yielding the nil slice). -/
def unmarshalArray (parse : String → Option JsonVal) (s : String) : Option (List JsonVal) :=
  match parse s with
  | some (JsonVal.arr xs) => some xs
  | some JsonVal.null => some []
  | _ => none

/-- Unmarshalling a chunk into `map[string]interface\x7b\x7d`: succeeds
exactly on a JSON object (or `null`, yielding the nil map). -/
def unmarshalObject (parse : String → Option JsonVal) (s : String) :
    Option (List (String × JsonVal)) :=
  match parse s with
  | some (JsonVal.obj fields) => some fields
  | some JsonVal.null => some []
  | _ => none

/-- Association-list lookup standing for a Go map read (objects are the
already-deduplicated parse result, so the first match is the value). -/
def jsonLookup (fields : List (String × JsonVal)) (key : String) : Option JsonVal :=
  match fields.find? (fun p => p.1 == key) with
  | some p => some p.2
  | none => none

/-- The object-shaped branch of the streaming callback: the chunk unmarshals
as an object whose `choices` value is a non-empty array whose first
element is an object whose `tool_calls` value is a non-empty array. -/
def hasToolCallsObject (parse : String → Option JsonVal) (chunk : String) : Bool :=
  match unmarshalObject parse chunk with
  | none => false
  | some fields =>
    match jsonLookup fields "choices" with
    | some (JsonVal.arr (c0 :: _)) =>
      match c0 with
      | JsonVal.obj cf =>
        match jsonLookup cf "tool_calls" with
        | some (JsonVal.arr (_ :: _)) => true
        | _ => false
      | _ => false
    | _ => false

/-- The chunk classifier of `GenerateContentAsStreaming`'s first streaming
callback: a chunk is suppressed (not forwarded to the channel) when it
unmarshals as a non-empty JSON array, or otherwise matches the
object-with-tool-calls shape. -/
def suppressChunk (parse : String → Option JsonVal) (chunk : String) : Bool :=
  match unmarshalArray parse chunk with
  | some (_ :: _) => true
  | _ => hasToolCallsObject parse chunk

/-- Rendering of an error value as `fmt.Sprintf("%v", err)` renders it (the
messages of the `fmt.Errorf` wrap sites; the wrapped external text is the
carried payload). -/
def errString : ErrKind → String
  | ErrKind.invalidArguments args => "invalid JSON arguments: " ++ args
  | ErrKind.unknownProvider => "not found"
  | ErrKind.toolExecutionFailed msg => "failed to call mcp tool: " ++ msg
  | ErrKind.marshalFailed msg => "failed to marshal mcp tool result: " ++ msg
  | ErrKind.generationFailed msg => msg

/-- Result of the streaming tool-call loop: the panic cause if any, whether
the goroutine returned early on a tool error, the conversation reached,
the strings emitted to the channel, and the provider invocations
performed. -/
structure StreamToolsResult where
  panicCause : Option PanicCause
  returnedEarly : Bool
  msgs : List MessageContent
  out : List String
  events : List Event
deriving DecidableEq, Repr

/-- The tool-call loop of `GenerateContentAsStreaming`: for each suggested
tool call, optionally emit the `[tool_usage]` marker, execute the tool
(an error emits `Error executing tool: ...` and returns early; a bad
name panics the goroutine), append the AI echo and the tool-result
messages, and optionally emit the `[tool_response]` marker with the
display-truncated result. -/
def streamToolCalls (env : Env) (ag : MCPAgent) (addNotFinalResponses : Bool) :
    List ToolCall → List MessageContent → StreamToolsResult
  | [], msgs => { panicCause := none, returnedEarly := false, msgs := msgs, out := [], events := [] }
  | tc :: rest, msgs =>
    let usageOut : List String :=
      if addNotFinalResponses then ["\n[tool_usage] " ++ tc.name ++ "\n"] else []
    let er := executeTool env ag tc.name tc.arguments
    match er.1 with
    | ToolOutcome.err e =>
      { panicCause := none, returnedEarly := true, msgs := msgs,
        out := usageOut ++ ["Error executing tool: " ++ errString e], events := er.2 }
    | ToolOutcome.panicked c =>
      { panicCause := some c, returnedEarly := false, msgs := msgs,
        out := usageOut, events := er.2 }
    | ToolOutcome.ok toolRes =>
      let msgs2 := msgs ++ [aiEchoMsg tc, toolRespMsg tc.id toolRes]
      let respOut : List String :=
        if addNotFinalResponses then
          ["\n[tool_response] " ++ tc.name ++ ": " ++ truncateDisplay toolRes ++ "]\n\n"]
        else []
      let res := streamToolCalls env ag addNotFinalResponses rest msgs2
      { panicCause := res.panicCause, returnedEarly := res.returnedEarly, msgs := res.msgs,
        out := usageOut ++ respOut ++ res.out, events := er.2 ++ res.events }

/-- Embedding of `MCPAgent.GenerateContentAsStreaming`: the first LLM call
streams its chunks through the classifier (suppressed chunks never reach
the channel); a generation error emits `Error generating content: ...`
and closes the channel.  If the first response's first choice suggests
tool calls, the tool loop runs, then exactly one more LLM call streams
every chunk unfiltered; its error emits `Error generating final content:
...`.  Returns the panic cause if any, the full sequence sent to the
channel before it closes, and the trace of external interactions. -/
def generateContentAsStreaming (env : Env) (ag : MCPAgent) (prompt : String)
    (addNotFinalResponses : Bool) : Option PanicCause × List String × List Event :=
  let msgs := [humanMsg prompt]
  let tools := extractToolsFromAgent ag
  let first := env.llmStream msgs tools
  let out1 := first.1.filter (fun c => !(suppressChunk env.jsonParse c))
  match first.2 with
  | Except.error e =>
    (none, out1 ++ ["Error generating content: " ++ e], [Event.llmCall msgs])
  | Except.ok resp =>
    match resp.choices with
    | [] => (none, out1, [Event.llmCall msgs])
    | choice :: _ =>
      if 0 < choice.toolCalls.length then
        let r := streamToolCalls env ag addNotFinalResponses choice.toolCalls msgs
        match r.panicCause with
        | some c => (some c, out1 ++ r.out, Event.llmCall msgs :: r.events)
        | none =>
          if r.returnedEarly then (none, out1 ++ r.out, Event.llmCall msgs :: r.events)
          else
            let second := env.llmStream r.msgs tools
            match second.2 with
            | Except.error e =>
              (none, out1 ++ r.out ++ second.1 ++ ["Error generating final content: " ++ e],
               Event.llmCall msgs :: r.events ++ [Event.llmCall r.msgs])
            | Except.ok _ =>
              (none, out1 ++ r.out ++ second.1,
               Event.llmCall msgs :: r.events ++ [Event.llmCall r.msgs])
      else
        (none, out1, [Event.llmCall msgs])

/-- The classifier condition as the specification words it: the fragment
parses as a JSON array with at least one element, or it parses as a JSON
object whose `choices` list has a first element containing a non-empty
`tool_calls` list. -/
def classifySpec (parse : String → Option JsonVal) (chunk : String) : Bool :=
  (match parse chunk with
   | some (JsonVal.arr (_ :: _)) => true
   | _ => false)
  || (match parse chunk with
      | some (JsonVal.obj fields) =>
        match jsonLookup fields "choices" with
        | some (JsonVal.arr (JsonVal.obj cf :: _)) =>
          match jsonLookup cf "tool_calls" with
          | some (JsonVal.arr (_ :: _)) => true
          | _ => false
        | _ => false
      | _ => false)

/-- Whether an event is an LLM call. -/
def Event.isLlmCall : Event → Bool
  | Event.llmCall _ => true
  | _ => false

/-- Whether an event is a provider tool invocation. -/
def Event.isToolInvoke : Event → Bool
  | Event.toolInvoke _ _ _ => true
  | _ => false

/-- Number of LLM calls recorded in a trace. -/
def countLlm (tr : List Event) : Nat := (tr.filter Event.isLlmCall).length

/-- Number of provider tool invocations recorded in a trace. -/
def countInvoke (tr : List Event) : Nat := (tr.filter Event.isToolInvoke).length

/-- The marshaled result a successful tool execution produces (used to name
the appended conversation content; meaningful under an
`executeTool ... = ok` hypothesis). -/
def okResult (env : Env) (ag : MCPAgent) (tc : ToolCall) : String :=
  match (executeTool env ag tc.name tc.arguments).1 with
  | ToolOutcome.ok r => r
  | _ => ""

/-- The request/result message pair one executed tool call appends. -/
def toolPair (env : Env) (ag : MCPAgent) (tc : ToolCall) : List MessageContent :=
  [aiEchoMsg tc, toolRespMsg tc.id (okResult env ag tc)]

/-- Provider invocations performed by a list of tool calls, in order. -/
def invokeEvents (env : Env) (ag : MCPAgent) (tcs : List ToolCall) : List Event :=
  tcs.flatMap (fun tc => (executeTool env ag tc.name tc.arguments).2)

/-- Progress-marker text one successfully executed tool call contributes to
the blocking response. -/
def markerOf (env : Env) (ag : MCPAgent) (a : Bool) (tc : ToolCall) : String :=
  if a then
    "\n[tool_usage] " ++ tc.name ++ "\n" ++ "\n[tool_response] " ++ tc.name ++ ": "
      ++ truncateDisplay (okResult env ag tc) ++ "]\n\n"
  else ""

/-- Progress-marker text a list of successfully executed tool calls
contributes to the blocking response. -/
def markersOf (env : Env) (ag : MCPAgent) (a : Bool) : List ToolCall → String
  | [] => ""
  | tc :: rest => markerOf env ag a tc ++ markersOf env ag a rest

/-- Progress markers a list of successfully executed tool calls emits on the
streaming channel. -/
def streamOutOf (env : Env) (ag : MCPAgent) (a : Bool) : List ToolCall → List String
  | [] => []
  | tc :: rest =>
    (if a then
      ["\n[tool_usage] " ++ tc.name ++ "\n",
       "\n[tool_response] " ++ tc.name ++ ": " ++ truncateDisplay (okResult env ag tc) ++ "]\n\n"]
     else []) ++ streamOutOf env ag a rest

theorem markersOf_false (env : Env) (ag : MCPAgent) (tcs : List ToolCall) :
    markersOf env ag false tcs = "" := by
  induction tcs with
  | nil => rfl
  | cons tc rest ih => simp [markersOf, markerOf, ih]

theorem streamOutOf_false (env : Env) (ag : MCPAgent) (tcs : List ToolCall) :
    streamOutOf env ag false tcs = [] := by
  induction tcs with
  | nil => rfl
  | cons tc rest ih => simp [streamOutOf, ih]

theorem executeTool_ok_events (env : Env) (ag : MCPAgent) (n a r : String)
    (h : (executeTool env ag n a).1 = ToolOutcome.ok r) :
    ∃ cl ln args, (executeTool env ag n a).2 = [Event.toolInvoke cl ln args] := by
  revert h
  unfold executeTool
  rcases validateArguments env a with e | args
  · intro h; simp at h
  · dsimp only
    rcases splitToolName n with _ | ⟨sName, lName⟩
    · intro h; simp at h
    · dsimp only
      rcases findServer ag.mcpServers sName with _ | srv
      · intro h; simp at h
      · dsimp only
        rcases env.callTool srv.client lName args with msg | handle
        · intro h; exact ⟨srv.client, lName, args, rfl⟩
        · dsimp only
          rcases env.marshalString handle with msg | res
          · intro h; exact ⟨srv.client, lName, args, rfl⟩
          · intro h; exact ⟨srv.client, lName, args, rfl⟩

theorem length_flatMap_const {α β : Type} (l : List α) (f : α → List β) (k : Nat)
    (h : ∀ x ∈ l, (f x).length = k) : (l.flatMap f).length = l.length * k := by
  induction l with
  | nil => simp
  | cons x rest ih =>
    simp only [List.flatMap_cons, List.length_append, List.length_cons]
    rw [h x (List.mem_cons_self x rest), ih (fun y hy => h y (List.mem_cons_of_mem _ hy))]
    ring

theorem runToolCalls_ok (env : Env) (ag : MCPAgent) (a : Bool) (tcs : List ToolCall)
    (st : LoopState)
    (h : ∀ tc ∈ tcs, ∃ r, (executeTool env ag tc.name tc.arguments).1 = ToolOutcome.ok r) :
    runToolCalls env ag a tcs st =
      (none,
       { msgs := st.msgs ++ tcs.flatMap (toolPair env ag),
         response := st.response ++ markersOf env ag a tcs },
       invokeEvents env ag tcs) := by
  induction tcs generalizing st with
  | nil => simp [runToolCalls, markersOf, invokeEvents]
  | cons tc rest ih =>
    obtain ⟨r, hr⟩ := h tc (List.mem_cons_self tc rest)
    have hrest : ∀ t ∈ rest, ∃ r2, (executeTool env ag t.name t.arguments).1 = ToolOutcome.ok r2 :=
      fun t ht => h t (List.mem_cons_of_mem _ ht)
    have hok : okResult env ag tc = r := by simp [okResult, hr]
    simp only [runToolCalls]
    rw [hr]
    dsimp only
    rw [ih _ hrest]
    cases a <;>
      simp [toolPair, invokeEvents, markersOf, markerOf, hok, String.append_assoc,
        List.append_assoc]

theorem streamToolCalls_ok (env : Env) (ag : MCPAgent) (a : Bool) (tcs : List ToolCall)
    (msgs : List MessageContent)
    (h : ∀ tc ∈ tcs, ∃ r, (executeTool env ag tc.name tc.arguments).1 = ToolOutcome.ok r) :
    streamToolCalls env ag a tcs msgs =
      { panicCause := none, returnedEarly := false,
        msgs := msgs ++ tcs.flatMap (toolPair env ag),
        out := streamOutOf env ag a tcs,
        events := invokeEvents env ag tcs } := by
  induction tcs generalizing msgs with
  | nil => simp [streamToolCalls, streamOutOf, invokeEvents]
  | cons tc rest ih =>
    obtain ⟨r, hr⟩ := h tc (List.mem_cons_self tc rest)
    have hrest : ∀ t ∈ rest, ∃ r2, (executeTool env ag t.name t.arguments).1 = ToolOutcome.ok r2 :=
      fun t ht => h t (List.mem_cons_of_mem _ ht)
    have hok : okResult env ag tc = r := by simp [okResult, hr]
    simp only [streamToolCalls]
    rw [hr]
    dsimp only
    rw [ih _ hrest]
    cases a <;>
      simp [toolPair, invokeEvents, streamOutOf, hok, List.append_assoc]

theorem runToolCalls_err (env : Env) (ag : MCPAgent) (a : Bool) (tc : ToolCall)
    (tcs2 : List ToolCall) (e : ErrKind)
    (h2 : (executeTool env ag tc.name tc.arguments).1 = ToolOutcome.err e) :
    ∀ (tcs1 : List ToolCall) (st : LoopState),
      (∀ t ∈ tcs1, ∃ r, (executeTool env ag t.name t.arguments).1 = ToolOutcome.ok r) →
      (runToolCalls env ag a (tcs1 ++ tc :: tcs2) st).1 = some (PanicCause.errValue e) ∧
      (runToolCalls env ag a (tcs1 ++ tc :: tcs2) st).2.2 =
        invokeEvents env ag tcs1 ++ (executeTool env ag tc.name tc.arguments).2 := by
  intro tcs1
  induction tcs1 with
  | nil =>
    intro st _
    simp only [List.nil_append, runToolCalls]
    rw [h2]
    simp [invokeEvents]
  | cons t0 rest ih =>
    intro st h1
    obtain ⟨r, hr⟩ := h1 t0 (List.mem_cons_self t0 rest)
    have hrest : ∀ t ∈ rest, ∃ r2, (executeTool env ag t.name t.arguments).1 = ToolOutcome.ok r2 :=
      fun t ht => h1 t (List.mem_cons_of_mem _ ht)
    simp only [List.cons_append, runToolCalls]
    rw [hr]
    dsimp only
    refine ⟨(ih _ hrest).1, ?_⟩
    simp only [List.append_eq]
    rw [(ih _ hrest).2]
    simp [invokeEvents, List.append_assoc]

theorem indexOfSep_cons_pos (c : Char) (l : List Char)
    (h : c = '_' ∧ l.head? = some '_') : indexOfSep (c :: l) = some 0 := by
  rw [indexOfSep, if_pos h]

theorem indexOfSep_cons_neg (c : Char) (l : List Char)
    (h : ¬(c = '_' ∧ l.head? = some '_')) :
    indexOfSep (c :: l) = (indexOfSep l).map (fun n => n + 1) := by
  rw [indexOfSep, if_neg h]

theorem indexOfSep_append_sep (t : List Char) :
    ∀ p : List Char, indexOfSep p = none → p.getLast? ≠ some '_' →
      indexOfSep (p ++ '_' :: '_' :: t) = some p.length := by
  intro p
  induction p with
  | nil =>
    intro _ _
    rw [List.nil_append, indexOfSep_cons_pos '_' ('_' :: t) ⟨rfl, rfl⟩]
    simp
  | cons c p ih =>
    intro hnone hlast
    cases p with
    | nil =>
      have hc : ¬(c = '_') := by
        intro h
        exact hlast (by simp [h])
      rw [List.cons_append, List.nil_append,
        indexOfSep_cons_neg _ _ (fun hh => hc hh.1),
        indexOfSep_cons_pos '_' ('_' :: t) ⟨rfl, rfl⟩]
      simp
    | cons d p2 =>
      have hcond : ¬(c = '_' ∧ (d :: p2).head? = some '_') := by
        intro hh
        rw [indexOfSep_cons_pos _ _ hh] at hnone
        exact Option.noConfusion hnone
      have hrest : indexOfSep (d :: p2) = none := by
        rw [indexOfSep_cons_neg _ _ hcond] at hnone
        exact Option.map_eq_none'.mp hnone
      have hlast2 : (d :: p2).getLast? ≠ some '_' := by
        rw [List.getLast?_cons_cons] at hlast
        exact hlast
      have hih := ih hrest hlast2
      have hcond3 : ¬(c = '_' ∧ ((d :: p2) ++ '_' :: '_' :: t).head? = some '_') := by
        intro hh
        exact hcond ⟨hh.1, by simpa using hh.2⟩
      rw [List.cons_append, indexOfSep_cons_neg _ _ hcond3, hih]
      simp

theorem splitToolName_roundtrip (P T : String)
    (hsep : indexOfSep P.toList = none)
    (hlast : P.toList.getLast? ≠ some '_') :
    splitToolName (P ++ "__" ++ T) = some (P, T) := by
  have hdata : (P ++ "__" ++ T).toList = P.toList ++ '_' :: '_' :: T.toList := by
    simp [String.toList, String.data_append]
  rw [splitToolName, hdata, indexOfSep_append_sep T.toList P.toList hsep hlast]
  dsimp only
  have htake : (P.toList ++ '_' :: '_' :: T.toList).take P.toList.length = P.toList :=
    List.take_left _ _
  have hdrop : (P.toList ++ '_' :: '_' :: T.toList).drop (P.toList.length + 2) = T.toList := by
    have h1 : P.toList ++ '_' :: '_' :: T.toList = (P.toList ++ ['_', '_']) ++ T.toList := by
      simp
    have h2 : P.toList.length + 2 = (P.toList ++ ['_', '_']).length := by
      simp
    rw [h1, h2, List.drop_left]
  rw [htake, hdrop]
  rfl

theorem filter_isLlmCall_eq_nil (evs : List Event)
    (h : ∀ e ∈ evs, Event.isToolInvoke e = true) :
    evs.filter Event.isLlmCall = [] := by
  induction evs with
  | nil => rfl
  | cons e rest ih =>
    have he := h e (List.mem_cons_self e rest)
    cases e with
    | llmCall m => simp [Event.isToolInvoke] at he
    | toolInvoke a b c =>
      rw [List.filter_cons_of_neg (by simp [Event.isLlmCall])]
      exact ih (fun x hx => h x (List.mem_cons_of_mem _ hx))

theorem filter_isToolInvoke_eq_self (evs : List Event)
    (h : ∀ e ∈ evs, Event.isToolInvoke e = true) :
    evs.filter Event.isToolInvoke = evs :=
  List.filter_eq_self.mpr h

theorem counts_of_round (m0 m1 : List MessageContent) (evs : List Event)
    (h : ∀ e ∈ evs, Event.isToolInvoke e = true) :
    countLlm (Event.llmCall m0 :: evs ++ [Event.llmCall m1]) = 2 ∧
    countInvoke (Event.llmCall m0 :: evs ++ [Event.llmCall m1]) = evs.length := by
  constructor
  · simp [countLlm, List.filter_append, List.filter_cons, Event.isLlmCall,
      filter_isLlmCall_eq_nil evs h]
  · simp [countInvoke, List.filter_append, List.filter_cons, Event.isLlmCall, Event.isToolInvoke,
      filter_isToolInvoke_eq_self evs h]

theorem invokeEvents_all_invoke (env : Env) (ag : MCPAgent) (tcs : List ToolCall)
    (hok : ∀ tc ∈ tcs, ∃ r, (executeTool env ag tc.name tc.arguments).1 = ToolOutcome.ok r) :
    ∀ e ∈ invokeEvents env ag tcs, Event.isToolInvoke e = true := by
  intro e he
  rw [invokeEvents] at he
  obtain ⟨tc, htc, hee⟩ := List.mem_flatMap.mp he
  obtain ⟨r, hr⟩ := hok tc htc
  obtain ⟨cl, ln, args, hev⟩ := executeTool_ok_events env ag tc.name tc.arguments r hr
  rw [hev] at hee
  simp only [List.mem_singleton] at hee
  rw [hee]
  rfl

theorem invokeEvents_length (env : Env) (ag : MCPAgent) (tcs : List ToolCall)
    (hok : ∀ tc ∈ tcs, ∃ r, (executeTool env ag tc.name tc.arguments).1 = ToolOutcome.ok r) :
    (invokeEvents env ag tcs).length = tcs.length := by
  rw [invokeEvents]
  rw [length_flatMap_const tcs _ 1]
  · simp
  · intro tc htc
    obtain ⟨r, hr⟩ := hok tc htc
    obtain ⟨cl, ln, args, hev⟩ := executeTool_ok_events env ag tc.name tc.arguments r hr
    rw [hev]
    rfl

/-- A concrete agent for witnesses: one provider `p` (client handle 0)
offering one tool `t`. -/
def agW : MCPAgent :=
  { mcpServerTools := [("p", [{ name := "t", description := "d" }])],
    mcpServers := [{ name := "p", client := 0 }] }

/-- A concrete suggested tool call for witnesses. -/
def tcW : ToolCall := { id := "1", name := "p__t", arguments := "" }

/-- A concrete first response suggesting one tool call. -/
def respToolsW : ContentResponse := { choices := [{ content := "", toolCalls := [tcW] }] }

/-- A concrete final response with no tool calls. -/
def respDoneW : ContentResponse := { choices := [{ content := "done", toolCalls := [] }] }

/-- A concrete environment for witnesses: the first LLM call suggests one
tool call, the second returns `done`; the provider call succeeds and
marshals to `result`; nothing parses as JSON. -/
def envW : Env :=
  { jsonParse := fun _ => none,
    llm := fun msgs _ => if msgs.length = 1 then Except.ok respToolsW else Except.ok respDoneW,
    llmStream := fun msgs _ =>
      (["chunk"], if msgs.length = 1 then Except.ok respToolsW else Except.ok respDoneW),
    callTool := fun _ _ _ => Except.ok 0,
    marshalString := fun _ => Except.ok "result" }

/-- C4: for every call to `ExecuteTool`, an empty or literal empty-object
arguments string means the provider (when name resolution and lookup
succeed) is invoked with null arguments — every recorded invocation
carries no arguments; and any other arguments string that the JSON
parser rejects makes the call fail with the invalid-arguments error
before any provider is contacted (no invocation is recorded). -/
theorem executeTool_argument_validation (env : Env) (ag : MCPAgent) (toolName args : String) :
    ((args = "" ∨ args = "\x7b\x7d") →
      (∀ cl t a2, Event.toolInvoke cl t a2 ∈ (executeTool env ag toolName args).2 → a2 = none) ∧
      (∀ sName lName srv, splitToolName toolName = some (sName, lName) →
        findServer ag.mcpServers sName = some srv →
        (executeTool env ag toolName args).2 = [Event.toolInvoke srv.client lName none])) ∧
    (args ≠ "" → args ≠ "\x7b\x7d" → env.jsonParse args = none →
      (executeTool env ag toolName args).1 = ToolOutcome.err (ErrKind.invalidArguments args) ∧
      (executeTool env ag toolName args).2 = []) := by
  constructor
  · intro hargs
    have hva : validateArguments env args = Except.ok none := by
      rw [validateArguments, if_pos hargs]
    constructor
    · intro cl t a2 hmem
      revert hmem
      unfold executeTool
      rw [hva]
      dsimp only
      rcases splitToolName toolName with _ | ⟨sName, lName⟩
      · intro hmem; simp at hmem
      · dsimp only
        rcases findServer ag.mcpServers sName with _ | srv
        · intro hmem; simp at hmem
        · dsimp only
          rcases env.callTool srv.client lName none with m | handle
          · intro hmem
            simp only [List.mem_singleton, Event.toolInvoke.injEq] at hmem
            exact hmem.2.2
          · dsimp only
            rcases env.marshalString handle with m | res
            · intro hmem
              simp only [List.mem_singleton, Event.toolInvoke.injEq] at hmem
              exact hmem.2.2
            · intro hmem
              simp only [List.mem_singleton, Event.toolInvoke.injEq] at hmem
              exact hmem.2.2
    · intro sName lName srv hsplit hfind
      unfold executeTool
      rw [hva]
      dsimp only
      rw [hsplit]
      dsimp only
      rw [hfind]
      dsimp only
      rcases env.callTool srv.client lName none with m | handle
      · rfl
      · dsimp only
        rcases env.marshalString handle with m | res
        · rfl
        · rfl
  · intro h1 h2 h3
    have hva : validateArguments env args = Except.error (ErrKind.invalidArguments args) := by
      rw [validateArguments, if_neg (fun hc => hc.elim h1 h2), h3]
    unfold executeTool
    rw [hva]
    exact ⟨rfl, rfl⟩

theorem executeTool_argument_validation_witness :
    (("" : String) = "" ∨ ("" : String) = "\x7b\x7d") ∧
    (executeTool envW agW "p__t" "").2 = [Event.toolInvoke 0 "t" none] ∧
    (executeTool envW agW "p__t" "bad").1 = ToolOutcome.err (ErrKind.invalidArguments "bad") ∧
    (executeTool envW agW "p__t" "bad").2 = [] := by
  refine ⟨Or.inl rfl, ?_, ?_, ?_⟩
  · exact ((executeTool_argument_validation envW agW "p__t" "").1 (Or.inl rfl)).2
      "p" "t" { name := "p", client := 0 } (by decide) (by decide)
  · exact ((executeTool_argument_validation envW agW "p__t" "bad").2
      (by decide) (by decide) rfl).1
  · exact ((executeTool_argument_validation envW agW "p__t" "bad").2
      (by decide) (by decide) rfl).2

/-- C10: for every tool name containing no `__` separator, `ExecuteTool`'s
name resolution panics (the Go slice expression `toolName[:-1]` is out of
range) instead of returning an unknown-provider error, and no provider
lookup or invocation happens — provided argument validation passed (an
empty, empty-object, or parseable arguments string). -/
theorem executeTool_no_separator (env : Env) (ag : MCPAgent) (toolName args : String)
    (hsep : indexOfSep toolName.toList = none)
    (hargs : args = "" ∨ args = "\x7b\x7d" ∨ (∃ v, env.jsonParse args = some v)) :
    executeTool env ag toolName args = (ToolOutcome.panicked PanicCause.sliceOutOfRange, []) := by
  have hsplit : splitToolName toolName = none := by rw [splitToolName, hsep]
  have hva : ∃ a2, validateArguments env args = Except.ok a2 := by
    rcases hargs with h | h | ⟨v, hv⟩
    · exact ⟨none, by rw [validateArguments, if_pos (Or.inl h)]⟩
    · exact ⟨none, by rw [validateArguments, if_pos (Or.inr h)]⟩
    · by_cases he : args = "" ∨ args = "\x7b\x7d"
      · exact ⟨none, by rw [validateArguments, if_pos he]⟩
      · exact ⟨some args, by rw [validateArguments, if_neg he, hv]⟩
  obtain ⟨a2, hva⟩ := hva
  unfold executeTool
  rw [hva, hsplit]

theorem executeTool_no_separator_witness :
    indexOfSep "foo".toList = none ∧
    executeTool envW agW "foo" "" = (ToolOutcome.panicked PanicCause.sliceOutOfRange, []) :=
  ⟨by decide, executeTool_no_separator envW agW "foo" "" (by decide) (Or.inl rfl)⟩

/-- C5 counterexample: the claim quantifies over any provider name `P` and
any separator-free local name `T`; taking `P` = `a__b` (which contains
the separator) and `T` = `c`, resolution of the composed name splits at
the FIRST separator, which lies inside `P`, and yields
`("a", "b__c")` instead of `("a__b", "c")`. -/
theorem namespacing_roundtrip_cex :
    indexOfSep "c".toList = none ∧
    splitToolName ("a__b" ++ "__" ++ "c") = some ("a", "b__c") ∧
    splitToolName ("a__b" ++ "__" ++ "c") ≠ some ("a__b", "c") := by
  exact ⟨by decide, by decide, by decide⟩

/-- C5 (amended): for any provider name `P` that contains no `__` and does
not end in `_`, and any local tool name `T`, composing the namespaced
name `P ++ "__" ++ T` (as `ExtractToolsFromAgent` does for the agent's
tools) and resolving it (as `ExecuteTool` does, splitting at the first
`__`) yields back exactly `(P, T)`. -/
theorem namespacing_roundtrip (ag : MCPAgent) (P : String) (ts : List McpTool) (agT : McpTool)
    (hmem : (P, ts) ∈ ag.mcpServerTools) (ht : agT ∈ ts)
    (hsep : indexOfSep P.toList = none)
    (hlast : P.toList.getLast? ≠ some '_') :
    (∃ lt ∈ extractToolsFromAgent ag, lt.name = P ++ "__" ++ agT.name) ∧
    splitToolName (P ++ "__" ++ agT.name) = some (P, agT.name) := by
  constructor
  · refine ⟨{ name := P ++ "__" ++ agT.name, description := agT.description }, ?_, rfl⟩
    rw [extractToolsFromAgent]
    apply List.mem_flatMap.mpr
    exact ⟨(P, ts), hmem, List.mem_map.mpr ⟨agT, ht, rfl⟩⟩
  · exact splitToolName_roundtrip P agT.name hsep hlast

theorem namespacing_roundtrip_witness :
    ("p", [({ name := "t", description := "d" } : McpTool)]) ∈ agW.mcpServerTools ∧
    indexOfSep "p".toList = none ∧
    "p".toList.getLast? ≠ some '_' ∧
    ((∃ lt ∈ extractToolsFromAgent agW, lt.name = "p" ++ "__" ++ "t") ∧
     splitToolName ("p" ++ "__" ++ "t") = some ("p", "t")) := by
  refine ⟨by decide, by decide, by decide, ?_⟩
  exact namespacing_roundtrip agW "p" [{ name := "t", description := "d" }]
    { name := "t", description := "d" } (by decide) (by decide) (by decide) (by decide)

/-- A concrete environment whose LLM never suggests tool calls. -/
def envW2 : Env :=
  { jsonParse := fun _ => none,
    llm := fun _ _ => Except.ok respDoneW,
    llmStream := fun _ _ => (["chunk"], Except.ok respDoneW),
    callTool := fun _ _ _ => Except.ok 0,
    marshalString := fun _ => Except.ok "result" }

/-- A concrete environment whose LLM suggests one tool call on every call
(so the second response also requests tools). -/
def envW3 : Env :=
  { jsonParse := fun _ => none,
    llm := fun _ _ => Except.ok respToolsW,
    llmStream := fun _ _ => (["chunk"], Except.ok respToolsW),
    callTool := fun _ _ _ => Except.ok 0,
    marshalString := fun _ => Except.ok "result" }

/-- C2: when the first LLM response's first choice contains zero tool calls,
the blocking loop performs exactly one LLM call and returns that
response's content unchanged — no tool invocation occurs, no second LLM
call is made, and no message is appended to the conversation. -/
theorem generateContent_no_tools (env : Env) (ag : MCPAgent) (prompt : String) (a : Bool)
    (resp : ContentResponse) (choice : ContentChoice) (rest : List ContentChoice)
    (hllm : env.llm [humanMsg prompt] (extractToolsFromAgent ag) = Except.ok resp)
    (hch : resp.choices = choice :: rest)
    (hz : choice.toolCalls = []) :
    generateContent env ag prompt a =
      (Outcome.ok choice.content, [Event.llmCall [humanMsg prompt]], [humanMsg prompt]) := by
  unfold generateContent
  dsimp only
  rw [hllm]
  dsimp only
  rw [hch]
  dsimp only
  rw [hz]
  simp

theorem generateContent_no_tools_witness :
    envW2.llm [humanMsg "hi"] (extractToolsFromAgent agW) = Except.ok respDoneW ∧
    respDoneW.choices = { content := "done", toolCalls := [] } :: [] ∧
    generateContent envW2 agW "hi" false =
      (Outcome.ok "done", [Event.llmCall [humanMsg "hi"]], [humanMsg "hi"]) :=
  ⟨rfl, rfl,
   generateContent_no_tools envW2 agW "hi" false respDoneW
     { content := "done", toolCalls := [] } [] rfl rfl rfl⟩

theorem generateContent_trace_ok (env : Env) (ag : MCPAgent) (prompt : String) (a : Bool)
    (resp : ContentResponse) (choice : ContentChoice) (rest : List ContentChoice)
    (hllm : env.llm [humanMsg prompt] (extractToolsFromAgent ag) = Except.ok resp)
    (hch : resp.choices = choice :: rest)
    (hne : choice.toolCalls ≠ [])
    (hok : ∀ tc ∈ choice.toolCalls,
      ∃ r, (executeTool env ag tc.name tc.arguments).1 = ToolOutcome.ok r) :
    (generateContent env ag prompt a).2.1 =
      Event.llmCall [humanMsg prompt] :: invokeEvents env ag choice.toolCalls
        ++ [Event.llmCall ([humanMsg prompt] ++ choice.toolCalls.flatMap (toolPair env ag))] ∧
    (generateContent env ag prompt a).2.2 =
      [humanMsg prompt] ++ choice.toolCalls.flatMap (toolPair env ag) := by
  have hrun := runToolCalls_ok env ag a choice.toolCalls
    { msgs := [humanMsg prompt], response := "" } hok
  have hpos : 0 < choice.toolCalls.length := List.length_pos.mpr hne
  unfold generateContent
  dsimp only
  rw [hllm]
  dsimp only
  rw [hch]
  dsimp only
  rw [if_pos hpos, hrun]
  dsimp only
  rcases env.llm ([humanMsg prompt] ++ choice.toolCalls.flatMap (toolPair env ag))
      (extractToolsFromAgent ag) with e | resp2
  · exact ⟨rfl, rfl⟩
  · dsimp only
    rcases resp2.choices with _ | ⟨c2, rest2⟩
    · exact ⟨rfl, rfl⟩
    · exact ⟨rfl, rfl⟩

/-- C1: when the first LLM response's first choice contains N >= 1 tool
calls, all executing successfully, the blocking loop performs exactly one
invocation per suggested call, in the order emitted, then exactly one
additional LLM call; each executed call appends exactly two messages (the
AI echo, then the tool result) before that next LLM call, whose
conversation is the initial prompt message plus those 2N messages. -/
theorem toolRound_trace (env : Env) (ag : MCPAgent) (prompt : String) (a : Bool)
    (resp : ContentResponse) (choice : ContentChoice) (rest : List ContentChoice)
    (hllm : env.llm [humanMsg prompt] (extractToolsFromAgent ag) = Except.ok resp)
    (hch : resp.choices = choice :: rest)
    (hne : choice.toolCalls ≠ [])
    (hok : ∀ tc ∈ choice.toolCalls,
      ∃ r, (executeTool env ag tc.name tc.arguments).1 = ToolOutcome.ok r) :
    (generateContent env ag prompt a).2.1 =
      Event.llmCall [humanMsg prompt] :: invokeEvents env ag choice.toolCalls
        ++ [Event.llmCall ([humanMsg prompt] ++ choice.toolCalls.flatMap (toolPair env ag))] ∧
    (∀ tc ∈ choice.toolCalls, ∃ cl ln args,
      (executeTool env ag tc.name tc.arguments).2 = [Event.toolInvoke cl ln args]) ∧
    (invokeEvents env ag choice.toolCalls).length = choice.toolCalls.length ∧
    (generateContent env ag prompt a).2.2 =
      [humanMsg prompt] ++ choice.toolCalls.flatMap (toolPair env ag) ∧
    (generateContent env ag prompt a).2.2.length = 1 + 2 * choice.toolCalls.length := by
  obtain ⟨htr, hmsgs⟩ := generateContent_trace_ok env ag prompt a resp choice rest hllm hch hne hok
  refine ⟨htr, ?_, invokeEvents_length env ag choice.toolCalls hok, hmsgs, ?_⟩
  · intro tc htc
    obtain ⟨r, hr⟩ := hok tc htc
    exact executeTool_ok_events env ag tc.name tc.arguments r hr
  · rw [hmsgs]
    have hlen : (choice.toolCalls.flatMap (toolPair env ag)).length =
        choice.toolCalls.length * 2 :=
      length_flatMap_const choice.toolCalls (toolPair env ag) 2 (fun tc _ => rfl)
    simp [hlen]
    omega

theorem toolRound_trace_witness :
    envW.llm [humanMsg "hi"] (extractToolsFromAgent agW) = Except.ok respToolsW ∧
    respToolsW.choices = { content := "", toolCalls := [tcW] } :: [] ∧
    ([tcW] : List ToolCall) ≠ [] ∧
    ((generateContent envW agW "hi" false).2.1 =
      Event.llmCall [humanMsg "hi"] :: invokeEvents envW agW [tcW]
        ++ [Event.llmCall ([humanMsg "hi"] ++ [tcW].flatMap (toolPair envW agW))] ∧
     (∀ tc ∈ ([tcW] : List ToolCall), ∃ cl ln args,
       (executeTool envW agW tc.name tc.arguments).2 = [Event.toolInvoke cl ln args]) ∧
     (invokeEvents envW agW [tcW]).length = [tcW].length ∧
     (generateContent envW agW "hi" false).2.2 =
       [humanMsg "hi"] ++ [tcW].flatMap (toolPair envW agW) ∧
     (generateContent envW agW "hi" false).2.2.length = 1 + 2 * [tcW].length) := by
  refine ⟨rfl, rfl, by decide, ?_⟩
  exact toolRound_trace envW agW "hi" false respToolsW { content := "", toolCalls := [tcW] } []
    rfl rfl (by decide)
    (by
      intro tc htc
      rw [List.mem_singleton] at htc
      rw [htc]
      exact ⟨"result", rfl⟩)

theorem streaming_trace_ok (env : Env) (ag : MCPAgent) (prompt : String) (a : Bool)
    (resp : ContentResponse) (choice : ContentChoice) (rest : List ContentChoice)
    (chunks1 : List String)
    (hstream : env.llmStream [humanMsg prompt] (extractToolsFromAgent ag) =
      (chunks1, Except.ok resp))
    (hch : resp.choices = choice :: rest)
    (hne : choice.toolCalls ≠ [])
    (hok : ∀ tc ∈ choice.toolCalls,
      ∃ r, (executeTool env ag tc.name tc.arguments).1 = ToolOutcome.ok r)
    (chunks2 : List String) (res2 : Except String ContentResponse)
    (h2 : env.llmStream ([humanMsg prompt] ++ choice.toolCalls.flatMap (toolPair env ag))
      (extractToolsFromAgent ag) = (chunks2, res2)) :
    (generateContentAsStreaming env ag prompt a).1 = none ∧
    (generateContentAsStreaming env ag prompt a).2.2 =
      Event.llmCall [humanMsg prompt] :: invokeEvents env ag choice.toolCalls
        ++ [Event.llmCall ([humanMsg prompt] ++ choice.toolCalls.flatMap (toolPair env ag))] ∧
    (generateContentAsStreaming env ag prompt a).2.1 =
      chunks1.filter (fun c => !(suppressChunk env.jsonParse c))
        ++ streamOutOf env ag a choice.toolCalls
        ++ (match res2 with
            | Except.error e => chunks2 ++ ["Error generating final content: " ++ e]
            | Except.ok _ => chunks2) := by
  have hrun := streamToolCalls_ok env ag a choice.toolCalls [humanMsg prompt] hok
  have hpos : 0 < choice.toolCalls.length := List.length_pos.mpr hne
  unfold generateContentAsStreaming
  dsimp only
  rw [hstream]
  dsimp only
  rw [hch]
  dsimp only
  rw [if_pos hpos, hrun]
  simp only [Bool.false_eq_true, if_false]
  simp only [h2]
  cases res2 with
  | error e =>
    refine ⟨rfl, rfl, ?_⟩
    simp [List.append_assoc]
  | ok r2 => exact ⟨rfl, rfl, rfl⟩

/-- C3: at most one round of tool calls per turn, in blocking and in
streaming mode: when the first response's first choice suggests tool
calls (all executing successfully) and the second (final) LLM response
itself requests further tool calls, those requests are never executed
and no third LLM call occurs — the trace holds exactly two LLM calls and
exactly one provider invocation per first-round suggestion. -/
theorem singleToolRound (env : Env) (ag : MCPAgent) (prompt : String) (a : Bool)
    (resp : ContentResponse) (choice : ContentChoice) (rest : List ContentChoice)
    (hllm : env.llm [humanMsg prompt] (extractToolsFromAgent ag) = Except.ok resp)
    (hch : resp.choices = choice :: rest)
    (hne : choice.toolCalls ≠ [])
    (hok : ∀ tc ∈ choice.toolCalls,
      ∃ r, (executeTool env ag tc.name tc.arguments).1 = ToolOutcome.ok r) :
    (∀ resp2 c2 rest2,
      env.llm ([humanMsg prompt] ++ choice.toolCalls.flatMap (toolPair env ag))
          (extractToolsFromAgent ag) = Except.ok resp2 →
      resp2.choices = c2 :: rest2 → c2.toolCalls ≠ [] →
      countLlm (generateContent env ag prompt a).2.1 = 2 ∧
      countInvoke (generateContent env ag prompt a).2.1 = choice.toolCalls.length) ∧
    (∀ chunks1 chunks2 resp2 c2 rest2,
      env.llmStream [humanMsg prompt] (extractToolsFromAgent ag) = (chunks1, Except.ok resp) →
      env.llmStream ([humanMsg prompt] ++ choice.toolCalls.flatMap (toolPair env ag))
          (extractToolsFromAgent ag) = (chunks2, Except.ok resp2) →
      resp2.choices = c2 :: rest2 → c2.toolCalls ≠ [] →
      countLlm (generateContentAsStreaming env ag prompt a).2.2 = 2 ∧
      countInvoke (generateContentAsStreaming env ag prompt a).2.2 = choice.toolCalls.length) := by
  have hall := invokeEvents_all_invoke env ag choice.toolCalls hok
  have hlen := invokeEvents_length env ag choice.toolCalls hok
  constructor
  · intro resp2 c2 rest2 hllm2 hch2 hne2
    obtain ⟨htr, hmsgs⟩ :=
      generateContent_trace_ok env ag prompt a resp choice rest hllm hch hne hok
    rw [htr]
    obtain ⟨hc1, hc2⟩ := counts_of_round [humanMsg prompt]
      ([humanMsg prompt] ++ choice.toolCalls.flatMap (toolPair env ag))
      (invokeEvents env ag choice.toolCalls) hall
    exact ⟨hc1, by rw [hc2]; exact hlen⟩
  · intro chunks1 chunks2 resp2 c2 rest2 hstream h2 hch2 hne2
    obtain ⟨hp, htr, hout⟩ := streaming_trace_ok env ag prompt a resp choice rest chunks1
      hstream hch hne hok chunks2 (Except.ok resp2) h2
    rw [htr]
    obtain ⟨hc1, hc2⟩ := counts_of_round [humanMsg prompt]
      ([humanMsg prompt] ++ choice.toolCalls.flatMap (toolPair env ag))
      (invokeEvents env ag choice.toolCalls) hall
    exact ⟨hc1, by rw [hc2]; exact hlen⟩

theorem singleToolRound_witness :
    envW3.llm [humanMsg "hi"] (extractToolsFromAgent agW) = Except.ok respToolsW ∧
    (countLlm (generateContent envW3 agW "hi" false).2.1 = 2 ∧
     countInvoke (generateContent envW3 agW "hi" false).2.1 = 1) ∧
    (countLlm (generateContentAsStreaming envW3 agW "hi" false).2.2 = 2 ∧
     countInvoke (generateContentAsStreaming envW3 agW "hi" false).2.2 = 1) := by
  have hok : ∀ tc ∈ ({ content := "", toolCalls := [tcW] } : ContentChoice).toolCalls,
      ∃ r, (executeTool envW3 agW tc.name tc.arguments).1 = ToolOutcome.ok r := by
    intro tc htc
    rw [List.mem_singleton] at htc
    rw [htc]
    exact ⟨"result", rfl⟩
  have h := singleToolRound envW3 agW "hi" false respToolsW
    { content := "", toolCalls := [tcW] } [] rfl rfl (by decide) hok
  exact ⟨rfl,
    h.1 respToolsW { content := "", toolCalls := [tcW] } [] rfl rfl (by decide),
    h.2 ["chunk"] ["chunk"] respToolsW { content := "", toolCalls := [tcW] } [] rfl rfl rfl
      (by decide)⟩

theorem executeTool_events_invoke (env : Env) (ag : MCPAgent) (n a : String) :
    ∀ ev ∈ (executeTool env ag n a).2, Event.isToolInvoke ev = true := by
  unfold executeTool
  rcases validateArguments env a with e | args
  · intro ev hev; simp at hev
  · dsimp only
    rcases splitToolName n with _ | ⟨sName, lName⟩
    · intro ev hev; simp at hev
    · dsimp only
      rcases findServer ag.mcpServers sName with _ | srv
      · intro ev hev; simp at hev
      · dsimp only
        rcases env.callTool srv.client lName args with m | handle
        · intro ev hev
          rw [List.mem_singleton] at hev
          rw [hev]
          rfl
        · dsimp only
          rcases env.marshalString handle with m | res
          · intro ev hev
            rw [List.mem_singleton] at hev
            rw [hev]
            rfl
          · intro ev hev
            rw [List.mem_singleton] at hev
            rw [hev]
            rfl

/-- A concrete environment whose LLM always fails. -/
def envFailW : Env :=
  { jsonParse := fun _ => none,
    llm := fun _ _ => Except.error "llm down",
    llmStream := fun _ _ => ([], Except.error "llm down"),
    callTool := fun _ _ _ => Except.ok 0,
    marshalString := fun _ => Except.ok "result" }

/-- A concrete environment whose provider tool call fails (transport
error). -/
def envToolFailW : Env :=
  { jsonParse := fun _ => none,
    llm := fun _ _ => Except.ok respToolsW,
    llmStream := fun _ _ => ([], Except.ok respToolsW),
    callTool := fun _ _ _ => Except.error "boom",
    marshalString := fun _ => Except.ok "result" }

/-- A concrete environment whose second (final) LLM call fails. -/
def envSecondFailW : Env :=
  { jsonParse := fun _ => none,
    llm := fun msgs _ =>
      if msgs.length = 1 then Except.ok respToolsW else Except.error "second down",
    llmStream := fun msgs _ =>
      ([], if msgs.length = 1 then Except.ok respToolsW else Except.error "second down"),
    callTool := fun _ _ _ => Except.ok 0,
    marshalString := fun _ => Except.ok "result" }

/-- C7 counterexample: with a failing LLM call, the blocking entry point
panics with the error (the Go function returns only a `string` and runs
`panic(err)` on every error path) — the error is not returned as an
error result: no run of the failing environment produces a normal
return. -/
theorem firstError_not_returned_cex :
    (generateContent envFailW agW "hi" false).1 =
      Outcome.panicked (PanicCause.errValue (ErrKind.generationFailed "llm down")) ∧
    ∀ s, (generateContent envFailW agW "hi" false).1 ≠ Outcome.ok s := by
  constructor
  · rfl
  · intro s h
    exact Outcome.noConfusion h

/-- C7 (amended): in blocking mode the first error of any of the four kinds
aborts the turn immediately and propagates to the caller as a panic
carrying that error — not as an error return value.  A failing first LLM
call panics before any tool invocation; a failing tool call (invalid
arguments, unknown provider, or execution failure, all surfacing as an
`ExecuteTool` error) panics with that error right after the invocations
already performed, with no second LLM call; a failing final LLM call
panics with that error. -/
theorem firstError_panics (env : Env) (ag : MCPAgent) (prompt : String) (a : Bool) :
    (∀ e, env.llm [humanMsg prompt] (extractToolsFromAgent ag) = Except.error e →
      generateContent env ag prompt a =
        (Outcome.panicked (PanicCause.errValue (ErrKind.generationFailed e)),
         [Event.llmCall [humanMsg prompt]], [humanMsg prompt])) ∧
    (∀ resp choice rest tcs1 tc tcs2 e,
      env.llm [humanMsg prompt] (extractToolsFromAgent ag) = Except.ok resp →
      resp.choices = choice :: rest →
      choice.toolCalls = tcs1 ++ tc :: tcs2 →
      (∀ t ∈ tcs1, ∃ r, (executeTool env ag t.name t.arguments).1 = ToolOutcome.ok r) →
      (executeTool env ag tc.name tc.arguments).1 = ToolOutcome.err e →
      (generateContent env ag prompt a).1 = Outcome.panicked (PanicCause.errValue e) ∧
      (generateContent env ag prompt a).2.1 =
        Event.llmCall [humanMsg prompt] ::
          (invokeEvents env ag tcs1 ++ (executeTool env ag tc.name tc.arguments).2) ∧
      countLlm (generateContent env ag prompt a).2.1 = 1) ∧
    (∀ resp choice rest e,
      env.llm [humanMsg prompt] (extractToolsFromAgent ag) = Except.ok resp →
      resp.choices = choice :: rest →
      choice.toolCalls ≠ [] →
      (∀ t ∈ choice.toolCalls,
        ∃ r, (executeTool env ag t.name t.arguments).1 = ToolOutcome.ok r) →
      env.llm ([humanMsg prompt] ++ choice.toolCalls.flatMap (toolPair env ag))
          (extractToolsFromAgent ag) = Except.error e →
      (generateContent env ag prompt a).1 =
        Outcome.panicked (PanicCause.errValue (ErrKind.generationFailed e))) := by
  refine ⟨?_, ?_, ?_⟩
  · intro e he
    unfold generateContent
    dsimp only
    rw [he]
  · intro resp choice rest tcs1 tc tcs2 e hllm hch htc hok1 hexec
    have hpos : 0 < choice.toolCalls.length := by
      rw [htc]
      simp
    obtain ⟨h1st, h2nd⟩ := runToolCalls_err env ag a tc tcs2 e hexec tcs1
      { msgs := [humanMsg prompt], response := "" } hok1
    have hall1 : ∀ ev ∈ (runToolCalls env ag a (tcs1 ++ tc :: tcs2)
        { msgs := [humanMsg prompt], response := "" }).2.2, Event.isToolInvoke ev = true := by
      rw [h2nd]
      intro ev hev
      rcases List.mem_append.mp hev with hmem | hmem
      · exact invokeEvents_all_invoke env ag tcs1 hok1 ev hmem
      · exact executeTool_events_invoke env ag tc.name tc.arguments ev hmem
    unfold generateContent
    dsimp only
    rw [hllm]
    dsimp only
    rw [hch]
    dsimp only
    rw [if_pos hpos]
    rw [htc]
    rw [h1st]
    dsimp only
    refine ⟨rfl, by rw [h2nd], ?_⟩
    rw [countLlm, List.filter_cons_of_pos (by rfl),
      filter_isLlmCall_eq_nil _ hall1]
    rfl
  · intro resp choice rest e hllm hch hne hok hllm2
    have hpos : 0 < choice.toolCalls.length := List.length_pos.mpr hne
    unfold generateContent
    dsimp only
    rw [hllm]
    dsimp only
    rw [hch]
    dsimp only
    rw [if_pos hpos, runToolCalls_ok env ag a choice.toolCalls
      { msgs := [humanMsg prompt], response := "" } hok]
    dsimp only
    rw [hllm2]

theorem firstError_panics_witness :
    envFailW.llm [humanMsg "hi"] (extractToolsFromAgent agW) = Except.error "llm down" ∧
    generateContent envFailW agW "hi" false =
      (Outcome.panicked (PanicCause.errValue (ErrKind.generationFailed "llm down")),
       [Event.llmCall [humanMsg "hi"]], [humanMsg "hi"]) ∧
    (executeTool envToolFailW agW tcW.name tcW.arguments).1 =
      ToolOutcome.err (ErrKind.toolExecutionFailed "boom") ∧
    ((generateContent envToolFailW agW "hi" false).1 =
      Outcome.panicked (PanicCause.errValue (ErrKind.toolExecutionFailed "boom")) ∧
     countLlm (generateContent envToolFailW agW "hi" false).2.1 = 1) ∧
    (generateContent envSecondFailW agW "hi" false).1 =
      Outcome.panicked (PanicCause.errValue (ErrKind.generationFailed "second down")) := by
  have hnil : ∀ t ∈ ([] : List ToolCall),
      ∃ r, (executeTool envToolFailW agW t.name t.arguments).1 = ToolOutcome.ok r := by
    intro t ht
    exact absurd ht (List.not_mem_nil t)
  have hok : ∀ t ∈ ({ content := "", toolCalls := [tcW] } : ContentChoice).toolCalls,
      ∃ r, (executeTool envSecondFailW agW t.name t.arguments).1 = ToolOutcome.ok r := by
    intro t ht
    rw [List.mem_singleton] at ht
    rw [ht]
    exact ⟨"result", rfl⟩
  have h2 := (firstError_panics envToolFailW agW "hi" false).2.1 respToolsW
    { content := "", toolCalls := [tcW] } [] [] tcW [] (ErrKind.toolExecutionFailed "boom")
    rfl rfl rfl hnil rfl
  refine ⟨rfl, (firstError_panics envFailW agW "hi" false).1 "llm down" rfl, rfl,
    ⟨h2.1, h2.2.2⟩, ?_⟩
  exact (firstError_panics envSecondFailW agW "hi" false).2.2 respToolsW
    { content := "", toolCalls := [tcW] } [] "second down" rfl rfl (by decide) hok rfl

/-- A tool result of 1001 characters, exceeding the display cap. -/
def bigStrW : String := String.mk (List.replicate 1001 'a')

/-- A concrete environment whose provider result marshals to a 1001
character string. -/
def envW8 : Env :=
  { jsonParse := fun _ => none,
    llm := fun _ _ => Except.ok respDoneW,
    llmStream := fun _ _ => ([], Except.ok respDoneW),
    callTool := fun _ _ _ => Except.ok 0,
    marshalString := fun _ => Except.ok bigStrW }

/-- C8: for every executed tool call, the conversation message appended for
the next LLM call carries the full untruncated serialized result (of any
length), while the human-readable progress marker — accumulated into the
blocking response and emitted on the streaming channel — shows the
display-truncated result: cut at 1000 characters with a trailing
ellipsis whenever the result exceeds the cap, unchanged otherwise. -/
theorem toolResult_truncation (env : Env) (ag : MCPAgent) (tc : ToolCall)
    (st : LoopState) (msgs : List MessageContent) (r : String)
    (hexec : (executeTool env ag tc.name tc.arguments).1 = ToolOutcome.ok r) :
    runToolCalls env ag true [tc] st =
      (none,
       { msgs := st.msgs ++ [aiEchoMsg tc, toolRespMsg tc.id r],
         response := st.response ++ "\n[tool_usage] " ++ tc.name ++ "\n"
           ++ "\n[tool_response] " ++ tc.name ++ ": " ++ truncateDisplay r ++ "]\n\n" },
       (executeTool env ag tc.name tc.arguments).2) ∧
    streamToolCalls env ag true [tc] msgs =
      { panicCause := none, returnedEarly := false,
        msgs := msgs ++ [aiEchoMsg tc, toolRespMsg tc.id r],
        out := ["\n[tool_usage] " ++ tc.name ++ "\n",
                "\n[tool_response] " ++ tc.name ++ ": " ++ truncateDisplay r ++ "]\n\n"],
        events := (executeTool env ag tc.name tc.arguments).2 } ∧
    (1000 < r.length → truncateDisplay r = r.take 1000 ++ "...") ∧
    (r.length ≤ 1000 → truncateDisplay r = r) := by
  have hok1 : ∀ t ∈ [tc], ∃ rr, (executeTool env ag t.name t.arguments).1 = ToolOutcome.ok rr := by
    intro t ht
    rw [List.mem_singleton] at ht
    rw [ht]
    exact ⟨r, hexec⟩
  have hokr : okResult env ag tc = r := by simp [okResult, hexec]
  refine ⟨?_, ?_, ?_, ?_⟩
  · rw [runToolCalls_ok env ag true [tc] st hok1]
    simp [toolPair, invokeEvents, markersOf, markerOf, hokr, String.append_assoc]
  · rw [streamToolCalls_ok env ag true [tc] msgs hok1]
    simp [toolPair, invokeEvents, streamOutOf, hokr]
  · intro h
    rw [truncateDisplay, if_pos h]
  · intro h
    rw [truncateDisplay, if_neg (by omega)]

theorem toolResult_truncation_witness :
    (executeTool envW8 agW tcW.name tcW.arguments).1 = ToolOutcome.ok bigStrW ∧
    1000 < bigStrW.length ∧
    truncateDisplay bigStrW = bigStrW.take 1000 ++ "..." ∧
    (runToolCalls envW8 agW true [tcW] { msgs := [], response := "" }).2.1.msgs =
      [] ++ [aiEchoMsg tcW, toolRespMsg tcW.id bigStrW] := by
  have hexec : (executeTool envW8 agW tcW.name tcW.arguments).1 = ToolOutcome.ok bigStrW := rfl
  have hlen : 1000 < bigStrW.length := by
    have he : bigStrW.length = (List.replicate 1001 'a').length := rfl
    rw [he, List.length_replicate]
    omega
  have h := toolResult_truncation envW8 agW tcW { msgs := [], response := "" } [] bigStrW hexec
  exact ⟨hexec, hlen, h.2.2.1 hlen, by rw [h.1]⟩

/-- A concrete environment appending a tool result `A`. -/
def envA : Env :=
  { jsonParse := fun _ => none,
    llm := fun msgs _ => if msgs.length = 1 then Except.ok respToolsW else Except.ok respDoneW,
    llmStream := fun msgs _ =>
      ([], if msgs.length = 1 then Except.ok respToolsW else Except.ok respDoneW),
    callTool := fun _ _ _ => Except.ok 0,
    marshalString := fun _ => Except.ok "A" }

/-- A concrete environment appending a tool result `B`. -/
def envB : Env :=
  { jsonParse := fun _ => none,
    llm := fun msgs _ => if msgs.length = 1 then Except.ok respToolsW else Except.ok respDoneW,
    llmStream := fun msgs _ =>
      ([], if msgs.length = 1 then Except.ok respToolsW else Except.ok respDoneW),
    callTool := fun _ _ _ => Except.ok 0,
    marshalString := fun _ => Except.ok "B" }

set_option maxRecDepth 100000 in
/-- C9 counterexample: two runs that append different tool-result messages
to the conversation produce identical caller-visible return values — the
Go blocking entry point returns only the response string, so the updated
conversation is not part of what the caller receives, contradicting the
claimed `(finalText, updatedConversation)` interface; likewise the
streaming entry point returns a single `chan string` and no message
channel. -/
theorem conversation_not_returned_cex :
    (generateContent envA agW "hi" false).1 = (generateContent envB agW "hi" false).1 ∧
    (generateContent envA agW "hi" false).2.2 ≠ (generateContent envB agW "hi" false).2.2 := by
  exact ⟨by decide, by decide⟩

/-- C9 (amended): the engine's caller-facing operations return only text:
the blocking entry point takes a prompt string (not a conversation) and
returns only the final response text — the conversation with its
appended tool request/result pairs is internal and discarded; the
streaming entry point returns a single channel of text fragments and no
conversation channel.  With progress markers disabled, the blocking
result is exactly the final response's content and the streamed output
is exactly the filtered first-call chunks followed by the unfiltered
second-call chunks. -/
theorem returns_text_only (env : Env) (ag : MCPAgent) (prompt : String)
    (resp : ContentResponse) (choice : ContentChoice) (rest : List ContentChoice)
    (resp2 : ContentResponse) (c2 : ContentChoice) (rest2 : List ContentChoice)
    (chunks1 chunks2 : List String)
    (hllm : env.llm [humanMsg prompt] (extractToolsFromAgent ag) = Except.ok resp)
    (hch : resp.choices = choice :: rest)
    (hne : choice.toolCalls ≠ [])
    (hok : ∀ tc ∈ choice.toolCalls,
      ∃ r, (executeTool env ag tc.name tc.arguments).1 = ToolOutcome.ok r)
    (hllm2 : env.llm ([humanMsg prompt] ++ choice.toolCalls.flatMap (toolPair env ag))
      (extractToolsFromAgent ag) = Except.ok resp2)
    (hch2 : resp2.choices = c2 :: rest2)
    (hstream : env.llmStream [humanMsg prompt] (extractToolsFromAgent ag) =
      (chunks1, Except.ok resp))
    (hstream2 : env.llmStream ([humanMsg prompt] ++ choice.toolCalls.flatMap (toolPair env ag))
      (extractToolsFromAgent ag) = (chunks2, Except.ok resp2)) :
    (generateContent env ag prompt false).1 = Outcome.ok c2.content ∧
    (generateContentAsStreaming env ag prompt false).2.1 =
      chunks1.filter (fun c => !(suppressChunk env.jsonParse c)) ++ chunks2 := by
  have hpos : 0 < choice.toolCalls.length := List.length_pos.mpr hne
  constructor
  · unfold generateContent
    dsimp only
    rw [hllm]
    dsimp only
    rw [hch]
    dsimp only
    rw [if_pos hpos, runToolCalls_ok env ag false choice.toolCalls
      { msgs := [humanMsg prompt], response := "" } hok]
    dsimp only
    rw [hllm2]
    dsimp only
    rw [hch2]
    dsimp only
    rw [markersOf_false]
    simp [String.empty_append]
  · obtain ⟨hp, htr, hout⟩ := streaming_trace_ok env ag prompt false resp choice rest chunks1
      hstream hch hne hok chunks2 (Except.ok resp2) hstream2
    rw [hout, streamOutOf_false]
    simp

theorem returns_text_only_witness :
    envW.llm [humanMsg "hi"] (extractToolsFromAgent agW) = Except.ok respToolsW ∧
    (generateContent envW agW "hi" false).1 = Outcome.ok "done" ∧
    (generateContentAsStreaming envW agW "hi" false).2.1 =
      ["chunk"].filter (fun c => !(suppressChunk envW.jsonParse c)) ++ ["chunk"] := by
  have hok : ∀ tc ∈ ({ content := "", toolCalls := [tcW] } : ContentChoice).toolCalls,
      ∃ r, (executeTool envW agW tc.name tc.arguments).1 = ToolOutcome.ok r := by
    intro tc htc
    rw [List.mem_singleton] at htc
    rw [htc]
    exact ⟨"result", rfl⟩
  have h := returns_text_only envW agW "hi" respToolsW
    { content := "", toolCalls := [tcW] } [] respDoneW { content := "done", toolCalls := [] } []
    ["chunk"] ["chunk"] rfl rfl (by decide) hok rfl rfl rfl rfl
  exact ⟨rfl, h.1, h.2⟩

/-- A concrete JSON parser for witnesses, recognizing three fragment
shapes. -/
def parseW : String → Option JsonVal := fun s =>
  if s = "arr" then some (JsonVal.arr [JsonVal.num 1])
  else if s = "toolobj" then
    some (JsonVal.obj
      [("choices", JsonVal.arr [JsonVal.obj [("tool_calls", JsonVal.arr [JsonVal.num 1])]])])
  else if s = "contentobj" then
    some (JsonVal.obj [("choices", JsonVal.arr [JsonVal.obj [("content", JsonVal.str "Hi")]])])
  else none

/-- A concrete environment streaming three fragments through `parseW`, with
no tool calls suggested. -/
def envParseW : Env :=
  { jsonParse := parseW,
    llm := fun _ _ => Except.ok respDoneW,
    llmStream := fun _ _ => (["arr", "plain", "toolobj"], Except.ok respDoneW),
    callTool := fun _ _ _ => Except.ok 0,
    marshalString := fun _ => Except.ok "result" }

/-- C6: a raw streaming fragment is suppressed if and only if it parses as a
JSON array with at least one element, or as a JSON object whose
`choices` list has a first element carrying a non-empty `tool_calls`
list — for every parser function and every fragment, the code's
classifier equals the specification predicate; and every fragment
failing both checks is forwarded to the channel verbatim: on a turn with
no tool calls suggested, the channel carries exactly the non-suppressed
chunks, unchanged and in order. -/
theorem chunk_classification (parse : String → Option JsonVal) (chunk : String) :
    suppressChunk parse chunk = classifySpec parse chunk ∧
    (∀ env ag prompt a chunks resp,
      env.jsonParse = parse →
      env.llmStream [humanMsg prompt] (extractToolsFromAgent ag) = (chunks, Except.ok resp) →
      (∀ choice rest, resp.choices = choice :: rest → choice.toolCalls = []) →
      generateContentAsStreaming env ag prompt a =
        (none, chunks.filter (fun c => !(suppressChunk parse c)),
         [Event.llmCall [humanMsg prompt]])) := by
  constructor
  · unfold suppressChunk classifySpec unmarshalArray hasToolCallsObject unmarshalObject
    rcases parse chunk with _ | v
    · rfl
    · cases v with
      | null => rfl
      | bool b => rfl
      | num n => rfl
      | str s => rfl
      | arr xs =>
        cases xs with
        | nil => rfl
        | cons x xs2 => rfl
      | obj fields =>
        dsimp only
        rcases jsonLookup fields "choices" with _ | cv
        · rfl
        · cases cv with
          | null => rfl
          | bool b => rfl
          | num n => rfl
          | str s => rfl
          | obj f2 => rfl
          | arr cs =>
            cases cs with
            | nil => rfl
            | cons c0 crest =>
              cases c0 with
              | null => rfl
              | bool b => rfl
              | num n => rfl
              | str s => rfl
              | arr a2 => rfl
              | obj cf =>
                dsimp only
                rcases jsonLookup cf "tool_calls" with _ | tv
                · rfl
                · cases tv with
                  | null => rfl
                  | bool b => rfl
                  | num n => rfl
                  | str s => rfl
                  | obj f3 => rfl
                  | arr ts =>
                    cases ts with
                    | nil => rfl
                    | cons t0 trest => rfl
  · intro env ag prompt a chunks resp hpe hstream hz
    unfold generateContentAsStreaming
    dsimp only
    rw [hstream]
    dsimp only
    rcases hc : resp.choices with _ | ⟨choice, rest⟩
    · dsimp only
      rw [hpe]
    · have hzz := hz choice rest hc
      dsimp only
      rw [hzz]
      simp [hpe]

theorem chunk_classification_witness :
    suppressChunk parseW "arr" = classifySpec parseW "arr" ∧
    suppressChunk parseW "arr" = true ∧
    suppressChunk parseW "toolobj" = true ∧
    suppressChunk parseW "contentobj" = false ∧
    suppressChunk parseW "plain" = false ∧
    envParseW.jsonParse = parseW ∧
    generateContentAsStreaming envParseW agW "hi" false =
      (none, ["arr", "plain", "toolobj"].filter (fun c => !(suppressChunk parseW c)),
       [Event.llmCall [humanMsg "hi"]]) := by
  refine ⟨(chunk_classification parseW "arr").1, by decide, by decide, by decide, by decide,
    rfl, ?_⟩
  exact (chunk_classification parseW "arr").2 envParseW agW "hi" false
    ["arr", "plain", "toolobj"] respDoneW rfl rfl
    (fun choice rest hc => by
      injection hc with h1 h2
      rw [← h1])

end McpAgents
